import Mathlib

/-!
Shallow embedding of the languatage scan-and-aggregate engine
(`src/lib.rs`), used to check the natural-language specification.

Modelling conventions:
* Paths and file names are Lean `String`s (the Rust code only ever sees
  UTF-8 paths here; `to_str` never fails in the model).
* `MAIN_SEPARATOR` is `'/'` (Unix); the hidden-directory check splits on
  both `'/'` and `'\\'` exactly as `path.split(&['/', '\\'][..])` does.
* The filesystem is a finite tree, given to the traversal explicitly.
  Each readable directory yields a list of entries; an entry can be a
  regular file, a subdirectory, or an `Err` item from `read_dir`
  (`errEntry`).  The `metaOk` flag says whether `entry.metadata()`
  succeeds; a directory's `readable` flag says whether `fs::read_dir`
  on it succeeds.  One consistent filesystem state is assumed, so the
  second `metadata()` call in `get_size` sees the same `metaOk`.
* `u64` byte sizes become `Nat`; the `f64` percentage becomes an exact
  rational (`ℚ`), so `v.1 as f64 / total as f64 * 100.0` is modelled as
  exact division.  Rust's stable `Vec::sort_by` is modelled by the
  stable insertion sort `List.insertionSort`.
-/

namespace Languatage

/-- The separator set used by `path.split(&['/', '\\'][..])` in `lib.rs`. -/
def isSepChar (c : Char) : Bool := c == '/' || c == '\\'

/-- The final component of `path` after splitting on `'/'` and `'\\'`:
`path.split(&['/', '\\'][..]).last()` in `lib.rs` (line 111). -/
def lastSeg (s : String) : String :=
  String.mk ((s.toList.reverse.takeWhile (fun c => !isSepChar c)).reverse)

/-- `str::starts_with('.')`: the first character is `'.'`. -/
def startsWithDot (s : String) : Bool :=
  match s.toList with
  | [] => false
  | c :: _ => c == '.'

/-- `lib.rs` line 111: `path != "." && path.split(&['/', '\\'][..]).last()?.starts_with('.')`. -/
def isDotDir (path : String) : Bool :=
  path != "." && startsWithDot (lastSeg path)

/-- Rust `str::contains(needle)`: substring test. -/
def containsSubstr (hay needle : String) : Bool :=
  decide (needle.toList <:+: hay.toList)

/-- `lib.rs` lines 130-132: some ignore pattern, wrapped in separators on
both sides, occurs in the entry's full path. -/
def ignoreMatches (ignores : List String) (path : String) : Bool :=
  ignores.any (fun ignore => containsSubstr path ("/" ++ ignore ++ "/"))

/-- `lib.rs` lines 142-144: the entry path ends with `"." ++ ext` for some
extension of the rule. -/
def extMatches (exts : List String) (path : String) : Bool :=
  exts.any (fun ext => ("." ++ ext).toList.isSuffixOf path.toList)

mutual
/-- A node of the modelled filesystem tree, as produced by `read_dir`:
a file (with the result of `metadata()` and its byte length), a directory
(with its `metadata()` result, whether `read_dir` on it succeeds, and its
children), or an `Err` item of the `read_dir` iterator. -/
inductive FsNode where
  | file (name : String) (metaOk : Bool) (size : Nat)
  | dir (name : String) (metaOk : Bool) (readable : Bool) (children : FsList)
  | errEntry

/-- A list of filesystem nodes (a directory's contents). -/
inductive FsList where
  | nil
  | cons (head : FsNode) (tail : FsList)
end

/-- A surviving `DirEntry` as used by `get_size`: its full path, whether
`metadata()` succeeds on it, and its byte length. -/
structure DirEntry where
  path : String
  metaOk : Bool
  size : Nat
deriving DecidableEq

mutual
/-- One entry of the `read_dir` loop body, `lib.rs` lines 124-151:
skip `Err` entries, skip ignored paths, skip entries whose metadata is
unavailable, recurse into directories (the recursive `get_dir_entries`
call of line 139 is inlined so that the recursion is structural; the
wrapper `get_dir_entries` below is proved equal to it definitionally),
and keep files with a matching extension. -/
def entryResult (path : String) (ignores exts : List String) : FsNode → List DirEntry
  | .errEntry => []
  | .file n metaOk size =>
    let entry_path := path ++ "/" ++ n
    if ignoreMatches ignores entry_path then []
    else if !metaOk then []
    else if extMatches exts entry_path then [⟨entry_path, metaOk, size⟩] else []
  | .dir n metaOk readable cs =>
    let entry_path := path ++ "/" ++ n
    if ignoreMatches ignores entry_path then []
    else if !metaOk then []
    else (if isDotDir entry_path then none
          else if !readable then none
          else some (collectEntries entry_path ignores exts cs)).getD []

/-- The `filter_map ... flatten` of `lib.rs` lines 122-153 over a
directory's listing. -/
def collectEntries (path : String) (ignores exts : List String) : FsList → List DirEntry
  | .nil => []
  | .cons c cs => entryResult path ignores exts c ++ collectEntries path ignores exts cs
end

/-- `get_dir_entries` of `lib.rs` lines 99-156: `None` when the path is a
hidden directory (line 111-115) or `read_dir` fails (lines 117-120),
otherwise the collected matching files. -/
def get_dir_entries (path : String) (ignores exts : List String)
    (readable : Bool) (children : FsList) : Option (List DirEntry) :=
  if isDotDir path then none
  else if !readable then none
  else some (collectEntries path ignores exts children)

/-- `LanguageConfigItem` of `config.rs`. -/
structure LanguageConfigItem where
  lang : String
  ext : List String
  ignore : List String
deriving DecidableEq

/-- `CommonConfig` of `config.rs`. -/
structure CommonConfig where
  ignore : List String
deriving DecidableEq

/-- `Config` of `config.rs`. -/
structure Config where
  language : List LanguageConfigItem
  common : CommonConfig
deriving DecidableEq

/-- `LanguageStat` of `lib.rs` lines 21-26, with the `f64` percentage
modelled as an exact rational. -/
structure LanguageStat where
  lang : String
  size : Nat
  percentage : ℚ
deriving DecidableEq

/-- The closure of `get_size`, `lib.rs` lines 77-92: concatenate the
common and per-language ignore lists, run `get_dir_entries` (dropping the
language when it yields `None`, via the `?` inside `filter_map`), and sum
the byte lengths of the entries whose metadata can be read. -/
def sizeForRule (path : String) (readable : Bool) (children : FsList)
    (common_ignores : List String) (language : LanguageConfigItem) :
    Option (String × Nat) :=
  let ignores := common_ignores ++ language.ignore
  match get_dir_entries path ignores language.ext readable children with
  | none => none
  | some entries =>
    let size : Nat := (entries.filterMap (fun v => if v.metaOk then some v.size else none)).sum
    some (language.lang, size)

/-- `get_size` of `lib.rs` lines 71-96.  Its Rust type is
`std::io::Result<Vec<(String, u64)>>` but its body ends in `Ok(result)`
and no error is ever produced; the `Except` value mirrors that type. -/
def get_size (path : String) (readable : Bool) (children : FsList)
    (config : Config) : Except String (List (String × Nat)) :=
  Except.ok (config.language.filterMap (sizeForRule path readable children config.common.ignore))

/-- The sort order of `lib.rs` line 55, `sizes.sort_by(|a, b| b.1.cmp(&a.1))`:
`a` precedes `b` when `b`'s byte total is at most `a`'s. -/
def sortRel : (String × Nat) → (String × Nat) → Prop := fun a b => b.2 ≤ a.2

instance : DecidableRel sortRel := fun a b => Nat.decLe b.2 a.2

instance : IsTotal (String × Nat) sortRel := ⟨fun a b => Nat.le_total b.2 a.2⟩

instance : IsTrans (String × Nat) sortRel := ⟨fun _ _ _ hab hbc => Nat.le_trans hbc hab⟩

/-- `get_stat_with_config` of `lib.rs` lines 46-69: drop zero totals,
stable-sort descending by total, and attach `size / total * 100` as the
percentage.  Rust's stable `Vec::sort_by` is modelled by the stable
`List.insertionSort`. -/
def get_stat_with_config (path : String) (readable : Bool) (children : FsList)
    (config : Config) : Except String (List LanguageStat) :=
  match get_size path readable children config with
  | .error e => .error e
  | .ok sizes =>
    let sizes := sizes.filter (fun v => v.2 != 0)
    let sizes := List.insertionSort sortRel sizes
    let total_size : Nat := (sizes.map (fun v => v.2)).sum
    let result := sizes.map (fun v =>
      { lang := v.1, size := v.2,
        percentage := ((v.2 : ℚ) / (total_size : ℚ)) * 100 : LanguageStat })
    Except.ok result

/-- Modelled from the spec: `Config::default()` parses `src/config.yaml`,
which is not among the given sources.  Spec §6 only fixes its shape (a
rule list plus one shared ignore list); the `config.rs` unit test pins the
first rule to `{ lang: "rust", ext: ["rs"], ignore: [] }`.  Any concrete
value works for the claims below, which hold for every default value. -/
def Config.default : Config :=
  { language := [{ lang := "rust", ext := ["rs"], ignore := [] }],
    common := { ignore := [] } }

/-- `get_stat` of `lib.rs` lines 34-37. -/
def get_stat (path : String) (readable : Bool) (children : FsList) :
    Except String (List LanguageStat) :=
  let config := Config.default
  get_stat_with_config path readable children config

end Languatage

namespace Languatage

/-! ### String and path lemmas -/

theorem toList_append (a b : String) : (a ++ b).toList = a.toList ++ b.toList :=
  String.data_append a b

theorem str_append_assoc (a b c : String) : a ++ b ++ c = a ++ (b ++ c) :=
  String.ext (by simp [String.data_append])

theorem takeWhile_append_stop (q : Char → Bool) (c : Char) (hc : q c = false) :
    ∀ A C : List Char, (A ++ c :: C).takeWhile q = A.takeWhile q := by
  intro A C
  induction A with
  | nil => simp [List.takeWhile_cons, hc]
  | cons a A ih =>
    by_cases h : q a <;> simp [List.takeWhile_cons, h, ih]

theorem lastSeg_append (p n : String) : lastSeg (p ++ "/" ++ n) = lastSeg n := by
  unfold lastSeg
  have h1 : (p ++ "/" ++ n).toList = (p.toList ++ ['/']) ++ n.toList := by
    rw [toList_append, toList_append]; rfl
  have h2 : ((p ++ "/" ++ n).toList).reverse
      = n.toList.reverse ++ '/' :: p.toList.reverse := by
    rw [h1, List.reverse_append, List.reverse_append]; rfl
  rw [h2, takeWhile_append_stop (fun c => !isSepChar c) '/' (by rfl)]

theorem append_sep_ne_dot (p n : String) : p ++ "/" ++ n ≠ "." := by
  intro h
  have h2 : (p ++ "/" ++ n).toList = ['.'] := by rw [h]; rfl
  have h3 : '/' ∈ (p ++ "/" ++ n).toList := by
    rw [toList_append, toList_append]
    simp [show "/".toList = ['/'] from rfl]
  rw [h2] at h3
  simp at h3

theorem isDotDir_append (p n : String) (h : startsWithDot (lastSeg n) = true) :
    isDotDir (p ++ "/" ++ n) = true := by
  unfold isDotDir
  rw [lastSeg_append, h, Bool.and_true, bne_iff_ne]
  exact append_sep_ne_dot p n

/-! ### Ignore-pattern lemmas -/

theorem containsSubstr_iff (hay needle : String) :
    containsSubstr hay needle = true ↔ needle.toList <:+: hay.toList := by
  simp [containsSubstr]

theorem ignoreMatches_iff (ignores : List String) (s : String) :
    ignoreMatches ignores s = true ↔
      ∃ p ∈ ignores, ∃ a b : String, s = a ++ "/" ++ p ++ "/" ++ b := by
  unfold ignoreMatches
  rw [List.any_eq_true]
  constructor
  · rintro ⟨p, hp, hc⟩
    rw [containsSubstr_iff] at hc
    obtain ⟨A, B, hAB⟩ := hc
    refine ⟨p, hp, String.mk A, String.mk B, ?_⟩
    apply String.ext
    rw [show s.data = s.toList from rfl, ← hAB]
    simp [String.data_append]
  · rintro ⟨p, hp, a, b, rfl⟩
    refine ⟨p, hp, ?_⟩
    rw [containsSubstr_iff]
    refine ⟨a.toList, b.toList, ?_⟩
    simp [toList_append]

theorem ignoreMatches_extend (igs : List String) (p t : String)
    (h : ignoreMatches igs p = true) :
    ignoreMatches igs (p ++ "/" ++ t) = true := by
  unfold ignoreMatches at h ⊢
  rw [List.any_eq_true] at h ⊢
  obtain ⟨i, hi, hc⟩ := h
  refine ⟨i, hi, ?_⟩
  rw [containsSubstr_iff] at hc ⊢
  refine hc.trans (List.IsPrefix.isInfix ?_)
  rw [toList_append, toList_append, List.append_assoc]
  exact List.prefix_append _ _

theorem ignoreMatches_child (igs : List String) (path name m : String)
    (h : name ∈ igs) :
    ignoreMatches igs (path ++ "/" ++ name ++ "/" ++ m) = true := by
  unfold ignoreMatches
  rw [List.any_eq_true]
  refine ⟨name, h, ?_⟩
  rw [containsSubstr_iff]
  refine ⟨path.toList, m.toList, ?_⟩
  simp [toList_append]

end Languatage

namespace Languatage

theorem ignoreMatches_nil (s : String) : ignoreMatches [] s = false := rfl

/-! ### Every collected entry's path extends the directory path -/

mutual
theorem entryResult_path_shape (path : String) (igs exts : List String) (c : FsNode) :
    ∀ e ∈ entryResult path igs exts c, ∃ t : String, e.path = path ++ "/" ++ t := by
  cases c with
  | errEntry => intro e he; simp [entryResult] at he
  | file n mOk sz =>
    intro e he
    simp only [entryResult] at he
    split at he
    · simp at he
    · split at he
      · simp at he
      · split at he
        · simp at he
          exact ⟨n, by rw [he]⟩
        · simp at he
  | dir n mOk r cs =>
    intro e he
    simp only [entryResult] at he
    split at he
    · simp at he
    · split at he
      · simp at he
      · split at he
        · simp at he
        · split at he
          · simp at he
          · simp only [Option.getD_some] at he
            obtain ⟨t, ht⟩ :=
              collectEntries_path_shape (path ++ "/" ++ n) igs exts cs e he
            refine ⟨n ++ "/" ++ t, ?_⟩
            rw [ht]
            simp [str_append_assoc]

theorem collectEntries_path_shape (path : String) (igs exts : List String) (l : FsList) :
    ∀ e ∈ collectEntries path igs exts l, ∃ t : String, e.path = path ++ "/" ++ t := by
  cases l with
  | nil => intro e he; simp [collectEntries] at he
  | cons c cs =>
    intro e he
    simp only [collectEntries, List.mem_append] at he
    rcases he with he | he
    · exact entryResult_path_shape path igs exts c e he
    · exact collectEntries_path_shape path igs exts cs e he
end

/-! ### The whole effect of the ignore list is a path-segment filter -/

mutual
theorem entryResult_eq_filter (path : String) (igs exts : List String) (c : FsNode) :
    entryResult path igs exts c
      = (entryResult path [] exts c).filter (fun e => !ignoreMatches igs e.path) := by
  cases c with
  | errEntry => rfl
  | file n mOk sz =>
    simp only [entryResult, ignoreMatches_nil, Bool.false_eq_true, if_false]
    cases hig : ignoreMatches igs (path ++ "/" ++ n) with
    | false =>
      cases mOk with
      | false => simp
      | true =>
        by_cases hext : extMatches exts (path ++ "/" ++ n) = true
        · simp [hext, hig, List.filter]
        · simp [hext]
    | true =>
      cases mOk with
      | false => simp
      | true =>
        by_cases hext : extMatches exts (path ++ "/" ++ n) = true
        · simp [hext, hig, List.filter]
        · simp [hext]
  | dir n mOk r cs =>
    simp only [entryResult, ignoreMatches_nil, Bool.false_eq_true, if_false]
    cases hig : ignoreMatches igs (path ++ "/" ++ n) with
    | false =>
      cases mOk with
      | false => simp
      | true =>
        by_cases hdot : isDotDir (path ++ "/" ++ n) = true
        · simp [hdot]
        · cases r with
          | false => simp [hdot]
          | true =>
            simp only [hig, Bool.false_eq_true, if_false, if_neg hdot,
              if_neg (by simp : ¬((!true) = true)), Option.getD_some]
            exact collectEntries_eq_filter (path ++ "/" ++ n) igs exts cs
    | true =>
      cases mOk with
      | false => simp
      | true =>
        by_cases hdot : isDotDir (path ++ "/" ++ n) = true
        · simp [hdot, hig]
        · cases r with
          | false => simp [hdot, hig]
          | true =>
            simp only [hig, if_true, if_neg hdot,
              if_neg (by simp : ¬((!true) = true)), Option.getD_some,
              Bool.not_true, Bool.false_eq_true, if_false]
            refine (List.filter_eq_nil_iff.mpr ?_).symm
            intro e he
            obtain ⟨t, ht⟩ := collectEntries_path_shape (path ++ "/" ++ n) [] exts cs e he
            simp [ht, ignoreMatches_extend igs _ t hig]

theorem collectEntries_eq_filter (path : String) (igs exts : List String) (l : FsList) :
    collectEntries path igs exts l
      = (collectEntries path [] exts l).filter (fun e => !ignoreMatches igs e.path) := by
  cases l with
  | nil => rfl
  | cons c cs =>
    simp only [collectEntries, List.filter_append]
    rw [entryResult_eq_filter path igs exts c, collectEntries_eq_filter path igs exts cs]
end

end Languatage

namespace Languatage

/-! ### Stability of the embedded sort -/

theorem orderedInsert_filter_eq (a : String × Nat) :
    ∀ s : List (String × Nat),
      (List.orderedInsert sortRel a s).filter (fun v => v.2 == a.2)
        = a :: s.filter (fun v => v.2 == a.2)
  | [] => by simp [List.orderedInsert]
  | b :: t => by
    by_cases h : sortRel a b
    · simp [List.orderedInsert, if_pos h, List.filter_cons]
    · have hne : (b.2 == a.2) = false := by
        have hlt : ¬ b.2 ≤ a.2 := h
        simp only [beq_eq_false_iff_ne, ne_eq]
        omega
      simp [List.orderedInsert, if_neg h, List.filter_cons, hne,
        orderedInsert_filter_eq a t]

theorem orderedInsert_filter_ne (a : String × Nat) (k : Nat) (hk : a.2 ≠ k) :
    ∀ s : List (String × Nat),
      (List.orderedInsert sortRel a s).filter (fun v => v.2 == k)
        = s.filter (fun v => v.2 == k)
  | [] => by simp [List.orderedInsert, List.filter_cons, beq_eq_false_iff_ne.mpr hk]
  | b :: t => by
    by_cases h : sortRel a b
    · simp [List.orderedInsert, if_pos h, List.filter_cons, beq_eq_false_iff_ne.mpr hk]
    · simp [List.orderedInsert, if_neg h, List.filter_cons,
        orderedInsert_filter_ne a k hk t]

theorem insertionSort_filter_key (k : Nat) :
    ∀ l : List (String × Nat),
      (List.insertionSort sortRel l).filter (fun v => v.2 == k)
        = l.filter (fun v => v.2 == k)
  | [] => rfl
  | a :: t => by
    by_cases hk : a.2 = k
    · subst hk
      rw [List.insertionSort, orderedInsert_filter_eq a (List.insertionSort sortRel t),
        insertionSort_filter_key a.2 t]
      simp [List.filter_cons]
    · rw [List.insertionSort, orderedInsert_filter_ne a k hk _,
        insertionSort_filter_key k t]
      simp [List.filter_cons, beq_eq_false_iff_ne.mpr hk]

/-! ### Percentage arithmetic -/

theorem sum_map_div_mul (T : ℚ) :
    ∀ l : List (String × Nat),
      (l.map (fun v => (v.2 : ℚ) / T * 100)).sum
        = ((l.map (fun v => ((v.2 : ℕ) : ℚ))).sum) / T * 100
  | [] => by simp
  | a :: t => by
    simp only [List.map_cons, List.sum_cons, sum_map_div_mul T t, add_div, add_mul]

/-! ### The success shape of the aggregation pipeline -/

theorem get_stat_with_config_eq (path : String) (rd : Bool) (ch : FsList) (cfg : Config) :
    get_stat_with_config path rd ch cfg =
      Except.ok ((List.insertionSort sortRel ((cfg.language.filterMap
          (sizeForRule path rd ch cfg.common.ignore)).filter (fun v => v.2 != 0))).map
        (fun v => ⟨v.1, v.2, (v.2 : ℚ) / ((((List.insertionSort sortRel
          ((cfg.language.filterMap (sizeForRule path rd ch cfg.common.ignore)).filter
            (fun v => v.2 != 0))).map (fun v => v.2)).sum : ℕ) : ℚ) * 100⟩)) := rfl

end Languatage

namespace Languatage

/-! ## Claim theorems -/

/-- Claim C1, counterexample: on an unreadable (or non-existent) root the
claim demands an error result, but `get_stat_with_config` returns the
success value `Ok` with an empty list: `get_dir_entries` turns the
`read_dir` failure into `None` (`lib.rs` lines 117-120) and the `?` inside
`filter_map` in `get_size` (line 84) silently drops every language, so no
`Err` is ever produced. -/
theorem unreadable_root_ok_counterexample :
    get_stat_with_config "/missing" false .nil ⟨[⟨"rust", ["rs"], []⟩], ⟨[]⟩⟩
      = Except.ok [] := rfl

/-- Claim C1, amended: whenever the root path cannot be read as a
directory, every rule is silently dropped and `get_stat_with_config`
returns `Ok([])` — a success value with an empty result, not an error. -/
theorem unreadable_root_returns_ok_empty (path : String) (ch : FsList) (cfg : Config) :
    get_stat_with_config path false ch cfg = Except.ok [] := by
  rw [get_stat_with_config_eq]
  have h : cfg.language.filterMap (sizeForRule path false ch cfg.common.ignore) = [] := by
    refine List.filterMap_eq_nil_iff.mpr ?_
    intro lg _
    have hnone : get_dir_entries path (cfg.common.ignore ++ lg.ignore) lg.ext false ch
        = none := by
      simp [get_dir_entries, ite_self]
    simp [sizeForRule, hnone]
  rw [h]
  rfl

/-- Claim C7: every language kept in the output of `get_stat_with_config`
has a non-zero byte total (`lib.rs` lines 51-54 filter totals `!= 0`
before anything else is computed). -/
theorem no_zero_size_stat (path : String) (rd : Bool) (ch : FsList) (cfg : Config)
    (res : List LanguageStat)
    (h : get_stat_with_config path rd ch cfg = Except.ok res) :
    ∀ st ∈ res, st.size ≠ 0 := by
  rw [get_stat_with_config_eq] at h
  obtain rfl := Except.ok.inj h
  intro st hst
  obtain ⟨v, hv, rfl⟩ := List.mem_map.mp hst
  have hvf : v ∈ (cfg.language.filterMap (sizeForRule path rd ch cfg.common.ignore)).filter
      (fun v => v.2 != 0) := (List.mem_insertionSort sortRel).mp hv
  have := (List.mem_filter.mp hvf).2
  simpa using this

/-- Claim C7, witness: in a scan of a single 10-byte `a.rs` file the
returned entry indeed has non-zero size. -/
theorem no_zero_size_stat_witness : (⟨"rust", 10, 100⟩ : LanguageStat).size ≠ 0 :=
  no_zero_size_stat "r" true (.cons (.file "a.rs" true 10) .nil)
    ⟨[⟨"rust", ["rs"], []⟩], ⟨[]⟩⟩ [⟨"rust", 10, 100⟩]
    (by
      have h : get_size "r" true (.cons (.file "a.rs" true 10) .nil)
          ⟨[⟨"rust", ["rs"], []⟩], ⟨[]⟩⟩ = Except.ok [("rust", 10)] := rfl
      rw [get_stat_with_config, h]
      norm_num [List.insertionSort, List.orderedInsert])
    ⟨"rust", 10, 100⟩ (by simp)

/-- Claim C8: each rule's byte total is computed independently of every
other rule (`get_size` maps each rule to its own scan, so splitting the
rule list splits the result), and a concrete file `a.h` matching the
extension lists of two different rules contributes its full 10 bytes to
both totals — no deduplication across rules. -/
theorem multi_rule_no_dedup :
    (∀ (path : String) (rd : Bool) (ch : FsList) (common : List String)
        (L1 L2 : List LanguageConfigItem) (s1 s2 : List (String × Nat)),
        get_size path rd ch ⟨L1, ⟨common⟩⟩ = Except.ok s1 →
        get_size path rd ch ⟨L2, ⟨common⟩⟩ = Except.ok s2 →
        get_size path rd ch ⟨L1 ++ L2, ⟨common⟩⟩ = Except.ok (s1 ++ s2)) ∧
    get_size "r" true (.cons (.file "a.h" true 10) .nil)
        ⟨[⟨"c", ["h"], []⟩, ⟨"cpp", ["h"], []⟩], ⟨[]⟩⟩
      = Except.ok [("c", 10), ("cpp", 10)] := by
  constructor
  · intro path rd ch common L1 L2 s1 s2 h1 h2
    simp only [get_size] at h1 h2 ⊢
    obtain rfl := Except.ok.inj h1
    obtain rfl := Except.ok.inj h2
    rw [List.filterMap_append]
  · rfl

/-- Claim C8, witness: the independence statement applied to a concrete
one-file tree and two singleton rule lists. -/
theorem multi_rule_no_dedup_witness :
    get_size "q" true (.cons (.file "m.rs" true 4) .nil)
        ⟨[⟨"a", ["rs"], []⟩] ++ [⟨"b", ["rs"], []⟩], ⟨[]⟩⟩
      = Except.ok ([("a", 4)] ++ [("b", 4)]) :=
  multi_rule_no_dedup.1 "q" true (.cons (.file "m.rs" true 4) .nil) []
    [⟨"a", ["rs"], []⟩] [⟨"b", ["rs"], []⟩] [("a", 4)] [("b", 4)] rfl rfl

/-- Claim C9: an unreadable entry never aborts the scan.  An `Err` item of
`read_dir`, a file or directory whose metadata cannot be read, and a
subdirectory whose own `read_dir` fails each contribute nothing while the
traversal of the remaining siblings continues unchanged; and the overall
operation always returns a success value. -/
theorem unreadable_entries_skipped :
    (∀ (path : String) (igs exts : List String) (rest : FsList),
        collectEntries path igs exts (.cons .errEntry rest)
          = collectEntries path igs exts rest) ∧
    (∀ (path : String) (igs exts : List String) (n : String) (sz : Nat) (rest : FsList),
        collectEntries path igs exts (.cons (.file n false sz) rest)
          = collectEntries path igs exts rest) ∧
    (∀ (path : String) (igs exts : List String) (n : String) (mOk : Bool)
        (cs rest : FsList),
        collectEntries path igs exts (.cons (.dir n mOk false cs) rest)
          = collectEntries path igs exts rest) ∧
    (∀ (path : String) (igs exts : List String) (n : String) (r : Bool)
        (cs rest : FsList),
        collectEntries path igs exts (.cons (.dir n false r cs) rest)
          = collectEntries path igs exts rest) ∧
    (∀ (path : String) (rd : Bool) (ch : FsList) (cfg : Config),
        ∃ res, get_stat_with_config path rd ch cfg = Except.ok res) := by
  refine ⟨fun path igs exts rest => rfl, ?_, ?_, ?_, ?_⟩
  · intro path igs exts n sz rest
    simp [collectEntries, entryResult, ite_self]
  · intro path igs exts n mOk cs rest
    simp [collectEntries, entryResult, ite_self]
  · intro path igs exts n r cs rest
    simp [collectEntries, entryResult, ite_self]
  · intro path rd ch cfg
    exact ⟨_, get_stat_with_config_eq path rd ch cfg⟩

/-- Claim C10: the one-argument `get_stat` is exactly
`get_stat_with_config` at the default configuration (`lib.rs` lines
34-37); the equivalence is definitional and holds for every value of the
default configuration. -/
theorem get_stat_eq_default_config (path : String) (rd : Bool) (ch : FsList) :
    get_stat path rd ch = get_stat_with_config path rd ch Config.default := rfl

end Languatage

namespace Languatage

/-- Claim C2, counterexample: the traversal has no built-in filter for
OS-reserved directory names.  With an empty ignore list, a 7-byte
`a.rs` file inside a directory named `$RECYCLE.BIN` is counted in full,
contradicting the claim that such directories are always skipped. -/
theorem system_dir_counted_counterexample :
    get_stat_with_config "r" true
        (.cons (.dir "$RECYCLE.BIN" true true (.cons (.file "a.rs" true 7) .nil)) .nil)
        ⟨[⟨"rust", ["rs"], []⟩], ⟨[]⟩⟩
      = Except.ok [⟨"rust", 7, 100⟩] := by
  have h : get_size "r" true
      (.cons (.dir "$RECYCLE.BIN" true true (.cons (.file "a.rs" true 7) .nil)) .nil)
      ⟨[⟨"rust", ["rs"], []⟩], ⟨[]⟩⟩ = Except.ok [("rust", 7)] := rfl
  rw [get_stat_with_config, h]
  norm_num [List.insertionSort, List.orderedInsert]

/-- Every child of a directory whose own name is an ignore pattern is
dropped by the ignore check, since its path contains the pattern bounded
by separators. -/
theorem collectEntries_name_ignored (igs exts : List String) (path name : String)
    (hmem : name ∈ igs) :
    ∀ l : FsList, collectEntries (path ++ "/" ++ name) igs exts l = []
  | .nil => rfl
  | .cons c cs2 => by
    have ih := collectEntries_name_ignored igs exts path name hmem cs2
    simp only [collectEntries, ih, List.append_nil]
    cases c with
    | errEntry => rfl
    | file m mo sz => simp [entryResult, ignoreMatches_child igs path name m hmem]
    | dir m mo r2 cs3 => simp [entryResult, ignoreMatches_child igs path name m hmem]

/-- Claim C2, amended: OS-reserved directory names are skipped only via
the ignore-pattern mechanism — whenever a directory's name is among the
effective ignore patterns, the directory contributes no file at all,
wherever it occurs in the tree (every child path then contains the
pattern bounded by separators, so the whole subtree is dropped). -/
theorem ignored_dir_contributes_nothing (path : String) (igs exts : List String)
    (name : String) (mOk r : Bool) (cs : FsList) (hmem : name ∈ igs) :
    entryResult path igs exts (.dir name mOk r cs) = [] := by
  have hchild := collectEntries_name_ignored igs exts path name hmem
  cases hig : ignoreMatches igs (path ++ "/" ++ name) with
  | true => simp [entryResult, hig]
  | false =>
    cases mOk with
    | false => simp [entryResult, hig]
    | true =>
      by_cases hdot : isDotDir (path ++ "/" ++ name) = true
      · simp [entryResult, hig, hdot]
      · cases r with
        | false => simp [entryResult, hig, hdot]
        | true => simp [entryResult, hig, hdot, hchild cs]

/-- Claim C2, witness: a directory named `$RECYCLE.BIN` contributes
nothing once that name is listed among the ignore patterns. -/
theorem ignored_dir_contributes_nothing_witness :
    entryResult "r" ["$RECYCLE.BIN"] ["rs"]
      (.dir "$RECYCLE.BIN" true true (.cons (.file "a.rs" true 7) .nil)) = [] :=
  ignored_dir_contributes_nothing "r" ["$RECYCLE.BIN"] ["rs"] "$RECYCLE.BIN" true true
    (.cons (.file "a.rs" true 7) .nil) (by simp)

/-- Claim C3: the entire effect of the ignore list on a scan is to drop
exactly those files whose full path contains an ignore pattern bounded by
path separators on both sides: running `get_dir_entries` with ignore
patterns equals running it with none and then filtering out every entry
whose path matches; and a path matches a pattern `p` precisely when it
decomposes as `a ++ "/" ++ p ++ "/" ++ b`.  In particular files beneath a
directory literally named `target` are dropped for pattern `target`,
while `targets` directories and `targetable` files are not. -/
theorem ignore_is_path_segment_filter :
    (∀ (path : String) (igs exts : List String) (rd : Bool) (ch : FsList),
        get_dir_entries path igs exts rd ch
          = (get_dir_entries path [] exts rd ch).map
              (fun es => es.filter (fun e => !ignoreMatches igs e.path))) ∧
    (∀ (igs : List String) (s : String),
        ignoreMatches igs s = true ↔
          ∃ p ∈ igs, ∃ a b : String, s = a ++ "/" ++ p ++ "/" ++ b) := by
  constructor
  · intro path igs exts rd ch
    simp only [get_dir_entries]
    split
    · rfl
    · split
      · rfl
      · rw [Option.map_some', collectEntries_eq_filter]
  · exact ignoreMatches_iff

/-- Claim C4, counterexample: a directory whose base name is `.a\b`
starts with a dot, yet the hidden-directory check of `lib.rs` line 111
splits on backslashes as well, looks only at the final chunk `b`, and
traverses the directory: the 5-byte `f.rs` beneath it is counted,
contradicting the claim that no file under a dot-prefixed directory is
ever counted. -/
theorem dot_dir_backslash_counterexample :
    startsWithDot ".a\\b" = true ∧
    get_stat_with_config "r" true
        (.cons (.dir ".a\\b" true true (.cons (.file "f.rs" true 5) .nil)) .nil)
        ⟨[⟨"rust", ["rs"], []⟩], ⟨[]⟩⟩
      = Except.ok [⟨"rust", 5, 100⟩] := by
  constructor
  · rfl
  · have h : get_size "r" true
        (.cons (.dir ".a\\b" true true (.cons (.file "f.rs" true 5) .nil)) .nil)
        ⟨[⟨"rust", ["rs"], []⟩], ⟨[]⟩⟩ = Except.ok [("rust", 5)] := rfl
    rw [get_stat_with_config, h]
    norm_num [List.insertionSort, List.orderedInsert]

/-- Claim C4, amended: a directory is treated as hidden and skipped with
its whole subtree exactly when the final component of its name after
splitting on both `/` and `\` starts with a dot — which coincides with
the plain dot-prefix rule for every name free of separator characters —
and the root path given literally as `.` is never treated as hidden. -/
theorem dot_component_dir_skipped :
    (∀ (path : String) (igs exts : List String) (n : String) (mOk r : Bool)
        (cs : FsList), startsWithDot (lastSeg n) = true →
        entryResult path igs exts (.dir n mOk r cs) = []) ∧
    isDotDir "." = false := by
  constructor
  · intro path igs exts n mOk r cs h
    have hdot : isDotDir (path ++ "/" ++ n) = true := isDotDir_append path n h
    cases hig : ignoreMatches igs (path ++ "/" ++ n) with
    | true => simp [entryResult, hig]
    | false =>
      cases mOk with
      | false => simp [entryResult, hig]
      | true => simp [entryResult, hig, hdot]
  · rfl

/-- Claim C4, witness: a `.git` directory is skipped together with the
matching file beneath it. -/
theorem dot_component_dir_skipped_witness :
    entryResult "r" [] ["rs"] (.dir ".git" true true (.cons (.file "a.rs" true 3) .nil))
      = [] :=
  dot_component_dir_skipped.1 "r" [] ["rs"] ".git" true true
    (.cons (.file "a.rs" true 3) .nil) rfl

end Languatage

namespace Languatage

/-- Claim C6: the output of `get_stat_with_config` is sorted by byte
total in non-increasing order, and for every total `k` the entries with
that total appear exactly as in the (rule-declaration-ordered) list of
per-rule totals — the tie-breaking of the stable sort preserves
declaration order. -/
theorem stats_sorted_and_stable (path : String) (rd : Bool) (ch : FsList) (cfg : Config)
    (res : List LanguageStat)
    (h : get_stat_with_config path rd ch cfg = Except.ok res) :
    res.Pairwise (fun a b => b.size ≤ a.size) ∧
    ∀ k : Nat, (res.filter (fun st => st.size == k)).map (fun st => st.lang)
      = (((cfg.language.filterMap (sizeForRule path rd ch cfg.common.ignore)).filter
          (fun v => v.2 != 0)).filter (fun v => v.2 == k)).map (fun v => v.1) := by
  rw [get_stat_with_config_eq] at h
  obtain rfl := Except.ok.inj h
  constructor
  · rw [List.pairwise_map]
    exact List.sorted_insertionSort sortRel _
  · intro k
    rw [List.filter_map, List.map_map]
    show ((List.insertionSort sortRel ((cfg.language.filterMap
        (sizeForRule path rd ch cfg.common.ignore)).filter (fun v => v.2 != 0))).filter
          (fun v => v.2 == k)).map (fun v => v.1) = _
    rw [insertionSort_filter_key k]

/-- Claim C6, witness: two rules with equal 10-byte totals come out in
declaration order. -/
theorem stats_sorted_and_stable_witness :
    ([⟨"rust", 10, 50⟩, ⟨"python", 10, 50⟩] : List LanguageStat).Pairwise
        (fun a b => b.size ≤ a.size) ∧
    ∀ k : Nat, (([⟨"rust", 10, 50⟩, ⟨"python", 10, 50⟩] : List LanguageStat).filter
          (fun st => st.size == k)).map (fun st => st.lang)
      = ((((⟨[⟨"rust", ["rs"], []⟩, ⟨"python", ["py"], []⟩], ⟨[]⟩⟩ : Config).language.filterMap
            (sizeForRule "r" true
              (.cons (.file "a.rs" true 10) (.cons (.file "a.py" true 10) .nil)) [])).filter
          (fun v => v.2 != 0)).filter (fun v => v.2 == k)).map (fun v => v.1) :=
  stats_sorted_and_stable "r" true
    (.cons (.file "a.rs" true 10) (.cons (.file "a.py" true 10) .nil))
    ⟨[⟨"rust", ["rs"], []⟩, ⟨"python", ["py"], []⟩], ⟨[]⟩⟩
    [⟨"rust", 10, 50⟩, ⟨"python", 10, 50⟩]
    (by
      have h : get_size "r" true
          (.cons (.file "a.rs" true 10) (.cons (.file "a.py" true 10) .nil))
          ⟨[⟨"rust", ["rs"], []⟩, ⟨"python", ["py"], []⟩], ⟨[]⟩⟩
          = Except.ok [("rust", 10), ("python", 10)] := rfl
      rw [get_stat_with_config, h]
      norm_num [List.insertionSort, List.orderedInsert, sortRel])

/-- Claim C5: if every rule's total is zero the result is the empty list
(no division happens); otherwise every entry's percentage is its size
divided by the grand total (the sum of the retained sizes) times 100, and
the percentages of a non-empty result sum to exactly 100 (the `f64`
arithmetic of the code is modelled by exact rationals, so no NaN value
exists and the floating-point tolerance is met exactly). -/
theorem percentages_sum_to_100 (path : String) (rd : Bool) (ch : FsList) (cfg : Config)
    (res : List LanguageStat) (sizes : List (String × Nat))
    (h : get_stat_with_config path rd ch cfg = Except.ok res)
    (hs : get_size path rd ch cfg = Except.ok sizes) :
    ((∀ v ∈ sizes, v.2 = 0) → res = []) ∧
    (∀ st ∈ res, st.percentage
        = (st.size : ℚ) / (((res.map (fun st => st.size)).sum : ℕ) : ℚ) * 100) ∧
    (res ≠ [] → (res.map (fun st => st.percentage)).sum = 100) := by
  rw [get_stat_with_config_eq] at h
  obtain rfl := Except.ok.inj h
  simp only [get_size] at hs
  obtain rfl := Except.ok.inj hs
  refine ⟨?_, ?_, ?_⟩
  · intro hz
    have hF : (cfg.language.filterMap (sizeForRule path rd ch cfg.common.ignore)).filter
        (fun v => v.2 != 0) = [] := by
      refine List.filter_eq_nil_iff.mpr ?_
      intro v hv
      simp [hz v hv]
    simp only [hF]
    rfl
  · intro st hst
    obtain ⟨v, hv, rfl⟩ := List.mem_map.mp hst
    have hmm : (((List.insertionSort sortRel ((cfg.language.filterMap
          (sizeForRule path rd ch cfg.common.ignore)).filter (fun v => v.2 != 0))).map
        (fun v => (⟨v.1, v.2, (v.2 : ℚ) / ((((List.insertionSort sortRel
          ((cfg.language.filterMap (sizeForRule path rd ch cfg.common.ignore)).filter
            (fun v => v.2 != 0))).map (fun v => v.2)).sum : ℕ) : ℚ) * 100⟩ : LanguageStat))).map
        (fun st => st.size))
        = (List.insertionSort sortRel ((cfg.language.filterMap
          (sizeForRule path rd ch cfg.common.ignore)).filter (fun v => v.2 != 0))).map
          (fun v => v.2) := by
      simp only [List.map_map]
      rfl
    rw [hmm]
  · intro hne
    have hS : List.insertionSort sortRel ((cfg.language.filterMap
        (sizeForRule path rd ch cfg.common.ignore)).filter (fun v => v.2 != 0)) ≠ [] := by
      intro h0
      exact hne (by rw [h0]; rfl)
    obtain ⟨w, hw⟩ := List.exists_mem_of_ne_nil _ hS
    have hw2 : w.2 ≠ 0 := by
      have := (List.mem_filter.mp ((List.mem_insertionSort sortRel).mp hw)).2
      simpa using this
    have hT : ((List.insertionSort sortRel ((cfg.language.filterMap
        (sizeForRule path rd ch cfg.common.ignore)).filter (fun v => v.2 != 0))).map
        (fun v => v.2)).sum ≠ 0 := by
      have hmem : w.2 ∈ (List.insertionSort sortRel ((cfg.language.filterMap
          (sizeForRule path rd ch cfg.common.ignore)).filter (fun v => v.2 != 0))).map
          (fun v => v.2) := List.mem_map_of_mem _ hw
      have hle := List.single_le_sum (fun (x : Nat) _ => Nat.zero_le x) _ hmem
      omega
    rw [List.map_map]
    show ((List.insertionSort sortRel ((cfg.language.filterMap
        (sizeForRule path rd ch cfg.common.ignore)).filter (fun v => v.2 != 0))).map
        (fun v => (v.2 : ℚ) / ((((List.insertionSort sortRel ((cfg.language.filterMap
          (sizeForRule path rd ch cfg.common.ignore)).filter (fun v => v.2 != 0))).map
          (fun v => v.2)).sum : ℕ) : ℚ) * 100)).sum = 100
    rw [sum_map_div_mul]
    have hcast : ((List.insertionSort sortRel ((cfg.language.filterMap
        (sizeForRule path rd ch cfg.common.ignore)).filter (fun v => v.2 != 0))).map
        (fun v => ((v.2 : ℕ) : ℚ))).sum
        = ((((List.insertionSort sortRel ((cfg.language.filterMap
          (sizeForRule path rd ch cfg.common.ignore)).filter (fun v => v.2 != 0))).map
          (fun v => v.2)).sum : ℕ) : ℚ) := by
      rw [Nat.cast_list_sum, List.map_map]
      rfl
    rw [hcast, div_self (Nat.cast_ne_zero.mpr hT), one_mul]

/-- Claim C5, witness: a single 10-byte file yields one entry at exactly
100 percent, and the three clauses hold at that concrete result. -/
theorem percentages_sum_to_100_witness :
    ((∀ v ∈ [("rust", 10)], v.2 = 0) → ([⟨"rust", 10, 100⟩] : List LanguageStat) = []) ∧
    (∀ st ∈ ([⟨"rust", 10, 100⟩] : List LanguageStat), st.percentage
        = (st.size : ℚ) /
            (((([⟨"rust", 10, 100⟩] : List LanguageStat).map (fun st => st.size)).sum : ℕ) : ℚ)
            * 100) ∧
    (([⟨"rust", 10, 100⟩] : List LanguageStat) ≠ [] →
      (([⟨"rust", 10, 100⟩] : List LanguageStat).map (fun st => st.percentage)).sum = 100) :=
  percentages_sum_to_100 "r" true (.cons (.file "a.rs" true 10) .nil)
    ⟨[⟨"rust", ["rs"], []⟩], ⟨[]⟩⟩ [⟨"rust", 10, 100⟩] [("rust", 10)]
    (by
      have h : get_size "r" true (.cons (.file "a.rs" true 10) .nil)
          ⟨[⟨"rust", ["rs"], []⟩], ⟨[]⟩⟩ = Except.ok [("rust", 10)] := rfl
      rw [get_stat_with_config, h]
      norm_num [List.insertionSort, List.orderedInsert])
    rfl

end Languatage
